import Mathlib

/-!
Verification development for the game-client repository.

The definitions below are a shallow embedding of the Rust sources:
  * src/repository/game_info.rs  (GameInfo::parse_metadata, GameInfo::parse_versions)
  * src/repository/smb.rs        (SmbConnection::get_game_info, title seeding)
  * src/metadata/cache.rs        (MetadataCache)
  * src/metadata/handler.rs      (MetadataHandler)

Conventions of the embedding:
  * Rust `u64`/`u32`/`usize` integers become `Nat`; wherever the source can
    overflow or saturate, the reduction (`% 2^32`, truncated subtraction)
    is written out explicitly.
  * Rust `Result<T, E>` becomes `RustResult E T` below; fallible operations
    return it next to the updated state.
  * The regexes of `parse_versions` are compiled by hand into matching
    functions over `List Char` that reproduce the leftmost-first semantics
    of the `regex` crate for exactly the patterns that appear in the source.
  * `HashMap` iteration order is unspecified in Rust; the embedding uses
    association lists in first-insertion order as a deterministic stand-in.
    No theorem below depends on the cross-group order beyond what a stable
    sort guarantees.
-/

/-- Maximal leading run of ASCII digits of a character list, together with the rest. -/
def takeDigits : List Char → List Char × List Char
  | [] => ([], [])
  | c :: cs =>
    if c.isDigit then
      let p := takeDigits cs
      (c :: p.1, p.2)
    else ([], c :: cs)

/-- Strip a literal prefix, returning the remainder on success. -/
def dropPre : List Char → List Char → Option (List Char)
  | [], s => some s
  | _ :: _, [] => none
  | p :: ps, c :: cs => if p = c then dropPre ps cs else none

/-- Try a matcher at every start position from left to right and keep the first
success: this is the leftmost-match search of a regex engine. -/
def scanPositions (f : List Char → Option α) : List Char → Option α
  | [] => f []
  | c :: cs => (f (c :: cs)) <|> scanPositions f cs

/-- Lazy dot-star: try the continuation first, then consume one character
(which, as for the `.` of the regex crate, must not be a newline) and retry.
This reproduces the backtracking order of a lazy `.*?`. -/
def scanDotLazy (f : List Char → Option α) : List Char → Option α
  | [] => f []
  | c :: cs => (f (c :: cs)) <|> (if c = '\n' then none else scanDotLazy f cs)

/-- Numeric value of a digit run (the digits are ASCII). -/
def digitsToNat (ds : List Char) : Nat :=
  ds.foldl (fun n c => n * 10 + (c.toNat - 48)) 0

/-- Rust `str::parse::<u32>()` on a candidate string: all characters must be
digits and the value must fit in 32 bits, otherwise the parse fails.
(The source never feeds a leading `+` sign to it.) -/
def parse_u32 (s : List Char) : Option Nat :=
  if s = [] then none
  else if s.all Char.isDigit then
    if digitsToNat s < 4294967296 then some (digitsToNat s) else none
  else none

/-- Matcher for `build_(\d+[a-z]?)_?\(?(\d+)?\)?` anchored at the start of the
input; returns the two capture groups. Everything after group 1 is optional,
so greedy matching is deterministic here. -/
def buildPatAt (s : List Char) : Option (List Char × Option (List Char)) :=
  match dropPre "build_".data s with
  | none => none
  | some s1 =>
    let p := takeDigits s1
    if p.1 = [] then none
    else
      let g1s2 : List Char × List Char :=
        match p.2 with
        | c :: cs => if c.isLower then (p.1 ++ [c], cs) else (p.1, p.2)
        | [] => (p.1, [])
      let s4 := match g1s2.2 with | '_' :: cs => cs | other => other
      let s5 := match s4 with | '(' :: cs => cs | other => other
      let q := takeDigits s5
      some (g1s2.1, if q.1 = [] then none else some q.1)

/-- Matcher for the dotted core `\d+\.\d+(\.\d+)?` anchored at the start of
the input; returns capture group 1 (the whole dotted version). -/
def dottedAt (s : List Char) : Option (List Char) :=
  let pa := takeDigits s
  if pa.1 = [] then none
  else
    match pa.2 with
    | '.' :: s2 =>
      let pb := takeDigits s2
      if pb.1 = [] then none
      else
        match pb.2 with
        | '.' :: s4 =>
          let pc := takeDigits s4
          if pc.1 = [] then some (pa.1 ++ '.' :: pb.1)
          else some (pa.1 ++ '.' :: pb.1 ++ '.' :: pc.1)
        | _ => some (pa.1 ++ '.' :: pb.1)
    | _ => none

/-- Matcher for `v(\d+\.\d+(\.\d+)?)` anchored at the start of the input. -/
def vPatAt (s : List Char) : Option (List Char) :=
  match s with
  | 'v' :: rest => dottedAt rest
  | _ => none

/-- Search for `build_(\d+[a-z]?)_?\(?(\d+)?\)?` (first version pattern of
`GameInfo::parse_versions`). -/
def rxBuild (s : List Char) : Option (List Char × Option (List Char)) :=
  scanPositions buildPatAt s

/-- Search for `v(\d+\.\d+(\.\d+)?)` (second version pattern). -/
def rxVDotted (s : List Char) : Option (List Char) :=
  scanPositions vPatAt s

/-- Search for `(\d+\.\d+(\.\d+)?)` (third version pattern). -/
def rxDotted (s : List Char) : Option (List Char) :=
  scanPositions dottedAt s

/-- Search for `(\d+)`: the first (leftmost, maximal) digit run, as used by
the `num_regex` that recovers a build number from a version display name. -/
def firstDigitRun (s : List Char) : Option (List Char) :=
  scanPositions
    (fun t =>
      let p := takeDigits t
      if p.1 = [] then none else some p.1) s

/-- Whitespace class `\s` of the regex crate. -/
def isSpaceRe (c : Char) : Bool :=
  c = ' ' || c = '\t' || c = '\n' || c = '\x0b' || c = '\x0c' || c = '\r'

/-- Character class `(?:_|\s|-)` separating the captured build from what follows. -/
def isSepRe (c : Char) : Bool :=
  c = '_' || isSpaceRe c || c = '-'

/-- Optional underscore `_?` with greedy backtracking into the continuation. -/
def underscoreOpt (k : List Char → Option α) (s : List Char) : Option α :=
  match s with
  | '_' :: cs => (k cs) <|> k ('_' :: cs)
  | _ => k s

/-- Alternation `(?:build|v)` followed by `_?`; the two branches start with
distinct characters, so trying them in order is exact. -/
def buildOrV (k : List Char → Option α) (s : List Char) : Option α :=
  (match dropPre "build".data s with
   | some r => underscoreOpt k r
   | none => none)
  <|> (match s with
       | 'v' :: r => underscoreOpt k r
       | _ => none)

/-- Capture `(\d+[a-z]?)` greedily, backtracking over the optional letter. -/
def capNum (k : List Char → List Char → Option α) (s : List Char) : Option α :=
  let p := takeDigits s
  if p.1 = [] then none
  else
    match p.2 with
    | c :: cs => if c.isLower then (k (p.1 ++ [c]) cs) <|> k p.1 (c :: cs) else k p.1 (c :: cs)
    | [] => k p.1 []

/-- Tail `(?:build|v)_?(\d+[a-z]?)` of the patch regex: the second capture. -/
def fromToTail2 (s : List Char) : Option (List Char) :=
  buildOrV (fun s1 => capNum (fun cap _ => some cap) s1) s

/-- Middle part `(?:build|v)_?(\d+[a-z]?)(?:_|\s|-).*?(?:to|-).*?` followed by
the second capture, anchored at the current position. -/
def fromToTail1 (s : List Char) : Option (List Char × List Char) :=
  buildOrV
    (fun s1 =>
      capNum
        (fun cap1 s2 =>
          match s2 with
          | c :: s3 =>
            if isSepRe c then
              scanDotLazy
                (fun s4 =>
                  ((dropPre "to".data s4) <|> (dropPre "-".data s4)).bind
                    (fun s5 =>
                      scanDotLazy
                        (fun s6 => (fromToTail2 s6).map (fun cap2 => (cap1, cap2))) s5))
                s3
            else none
          | [] => none)
        s1)
    s

/-- The whole patch regex
`(?:patch|update).*?(?:build|v)_?(\d+[a-z]?)(?:_|\s|-).*?(?:to|-).*?(?:build|v)_?(\d+[a-z]?)`
anchored at the current position. -/
def fromToAt (s : List Char) : Option (List Char × List Char) :=
  ((dropPre "patch".data s) <|> (dropPre "update".data s)).bind
    (fun s1 => scanDotLazy fromToTail1 s1)

/-- Search for the from/to patch pattern (the `from_to_regex` of the source). -/
def rxFromTo (s : List Char) : Option (List Char × List Char) :=
  scanPositions fromToAt s

/-- Lowercasing as applied by `to_lowercase()` on the ASCII file names. -/
def lowerChars (s : List Char) : List Char :=
  s.map Char.toLower

example : rxVDotted "v1.2.3_setup.exe".data = some "1.2.3".data := by decide

example : rxBuild "setup_build_100.exe".data = some ("100".data, none) := by decide

example :
    rxFromTo (lowerChars "patch_build_100_to_build_200.exe".data)
      = some ("100".data, "200".data) := by decide

/-! Data model of src/repository/game_info.rs. -/

/-- Type of game file (enum `FileType`). -/
inductive FileType
  | Installer
  | Patch
  | Other
deriving DecidableEq

/-- Information about a game file (struct `GameFile`). -/
structure GameFile where
  name : String
  remote_path : String
  size : Nat
  file_type : FileType
deriving DecidableEq

/-- Information about a game version (struct `GameVersion`). The source keeps
`build` as a `u32`; every value the code stores in it is below `2^32`. -/
structure GameVersion where
  name : String
  build : Nat
  files : List GameFile
  required_patches : List GameFile
deriving DecidableEq

/-- Information about a game (struct `GameInfo`). `cover_image` is a
filesystem path in the source and is carried here as a string. -/
structure GameInfo where
  id : String
  title : String
  developer : Option String
  publisher : Option String
  release_date : Option String
  description : Option String
  igdb_id : Option Nat
  files : List GameFile
  versions : List GameVersion
  cover_image : Option String
deriving DecidableEq

/-! Version resolution: GameInfo::parse_versions. -/

/-- Result of trying the ordered version-pattern list on a lowercased
installer name: group 1 (the version string) and, for the build pattern,
the optional second capture. The first matching pattern wins. -/
def extractVersion (lowerName : List Char) : Option (List Char × Option (List Char)) :=
  match rxBuild lowerName with
  | some g => some g
  | none =>
    match rxVDotted lowerName with
    | some g1 => some (g1, none)
    | none =>
      match rxDotted lowerName with
      | some g1 => some (g1, none)
      | none => none

/-- Split a character list on a separator character, as Rust `split`. -/
def splitOnChar (c : Char) : List Char → List (List Char)
  | [] => [[]]
  | x :: xs =>
    let r := splitOnChar c xs
    if x = c then [] :: r
    else
      match r with
      | h :: t => (x :: h) :: t
      | [] => [[x]]

/-- Build number computed by the first pass of `parse_versions` for one
captured version string: a dotted `a.b.c` sums `ai * 10^(6-2i)` in `u32`
arithmetic, otherwise capture 2 or the version string itself is parsed as a
number, defaulting to 0. The source computes this value inside the grouping
loop and then never reads it again: the version map only records file lists,
and the emitted build number is recomputed from the display name (see
`groupBuild`). The value is kept here because the discarded computation is
the behaviour the specification describes. -/
def firstPassBuild (versionStr : List Char) (g2 : Option (List Char)) : Nat :=
  if versionStr.contains '.' then
    ((splitOnChar '.' versionStr).enum.foldl
      (fun acc ip =>
        match parse_u32 ip.2 with
        | some num => (acc + num * 10 ^ (6 - 2 * ip.1)) % 4294967296
        | none => acc)
      0)
  else
    match g2.bind parse_u32 with
    | some n => n
    | none => (parse_u32 versionStr).getD 0

/-- Display name of a version group: dotted captures become `Version x`,
plain ones `Build x`. -/
def versionName (versionStr : List Char) : String :=
  if versionStr.contains '.' then "Version " ++ String.mk versionStr
  else "Build " ++ String.mk versionStr

/-- Append a file to the group of `key` in the version map, creating the
group if needed (`version_map.entry(...).or_insert_with(Vec::new).push`).
Association list in first-insertion order stands in for the `HashMap`. -/
def mapPush (m : List (String × List GameFile)) (key : String) (f : GameFile) :
    List (String × List GameFile) :=
  if (m.find? (fun p => p.1 = key)).isSome then
    m.map (fun p => if p.1 = key then (p.1, p.2 ++ [f]) else p)
  else m ++ [(key, [f])]

/-- First pass of `parse_versions` for one installer file: group it under the
extracted version name, or under the sentinel group when no pattern matches. -/
def addInstaller (m : List (String × List GameFile)) (f : GameFile) :
    List (String × List GameFile) :=
  match extractVersion (lowerChars f.name.data) with
  | some g => mapPush m (versionName g.1) f
  | none => mapPush m "Default Version" f

/-- Build number attached to a finished group: the sentinel group gets 1,
any other group re-extracts the first integer of its display name via
`num_regex`, defaulting to 1 when absent or not a `u32`. -/
def groupBuild (name : String) : Nat :=
  if name = "Default Version" then 1
  else
    match firstDigitRun name.data with
    | some ds => (parse_u32 ds).getD 1
    | none => 1

/-- Decide whether one patch is attached to a version with the given build:
a from/to capture must equal the build (the unparsable capture degrades to
0), and a patch without a from/to match is attached unconditionally. -/
def patchApplies (p : GameFile) (build : Nat) : Bool :=
  match rxFromTo (lowerChars p.name.data) with
  | some ft => build = (parse_u32 ft.1).getD 0
  | none => true

/-- Second pass of `parse_versions` for one patch file: append it to the
required patches of every version it applies to. -/
def attachPatch (vs : List GameVersion) (p : GameFile) : List GameVersion :=
  vs.map
    (fun v =>
      if patchApplies p v.build then
        { v with required_patches := v.required_patches ++ [p] }
      else v)

/-- Installer-classified files of a game. -/
def installersOf (files : List GameFile) : List GameFile :=
  files.filter (fun f => f.file_type = FileType.Installer)

/-- Patch-classified files of a game. -/
def patchesOf (files : List GameFile) : List GameFile :=
  files.filter (fun f => f.file_type = FileType.Patch)

/-- The grouped version map after the first pass. -/
def versionMapOf (files : List GameFile) : List (String × List GameFile) :=
  (installersOf files).foldl addInstaller []

/-- Versions flattened from the map, before patch assignment. -/
def baseVersionsOf (files : List GameFile) : List GameVersion :=
  (versionMapOf files).map
    (fun g => { name := g.1, build := groupBuild g.1, files := g.2, required_patches := [] })

/-- Versions after the guarded patch-assignment pass. -/
def patchedVersionsOf (files : List GameFile) : List GameVersion :=
  if ¬ (patchesOf files).isEmpty ∧ ¬ (baseVersionsOf files).isEmpty then
    (patchesOf files).foldl attachPatch (baseVersionsOf files)
  else baseVersionsOf files

/-- The safety net of `parse_versions`: if no version was identified but
installers exist, synthesize one default version holding all installers. -/
def withDefaultOf (files : List GameFile) : List GameVersion :=
  if (patchedVersionsOf files).isEmpty ∧ ¬ (installersOf files).isEmpty then
    patchedVersionsOf files ++
      [{ name := "Default Version", build := 1, files := installersOf files,
         required_patches := [] }]
  else patchedVersionsOf files

/-- Comparator of the final sort: `sort_by(|a, b| b.build.cmp(&a.build))`,
i.e. non-increasing build numbers. -/
def versionLe (a b : GameVersion) : Bool :=
  decide (b.build ≤ a.build)

/-- Insert an element into a sorted list, keeping it before the first element
it compares `le` to: with a total `le` this is the stable position. -/
def insertSorted (le : α → α → Bool) (a : α) : List α → List α
  | [] => [a]
  | b :: bs => if le a b then a :: b :: bs else b :: insertSorted le a bs

/-- Stable insertion sort. Rust `sort_by` is a stable sort, and a stable sort
under a total preorder has a unique output, so this function computes exactly
the list the source's sort produces. -/
def stableSort (le : α → α → Bool) : List α → List α
  | [] => []
  | a :: l => insertSorted le a (stableSort le l)

/-- GameInfo::parse_versions as a function from the file list to the version
list (the source reads `self.files` and writes `self.versions`). -/
def parse_versions (files : List GameFile) : List GameVersion :=
  stableSort versionLe (withDefaultOf files)

example :
    parse_versions [⟨"setup_build_100.exe", "g/a", 1, FileType.Installer⟩]
      = [⟨"Build 100", 100, [⟨"setup_build_100.exe", "g/a", 1, FileType.Installer⟩], []⟩] := by
  decide

/-! Info-text parsing: GameInfo::parse_metadata and set_metadata_value. -/

/-- Split a character list at the first occurrence of a separator, as Rust
`str::split_once`. -/
def splitOnceChars (c : Char) : List Char → Option (List Char × List Char)
  | [] => none
  | x :: xs =>
    if x = c then some ([], xs)
    else (splitOnceChars c xs).map (fun p => (x :: p.1, p.2))

/-- String-level `split_once`. -/
def splitOnceStr (s : String) (c : Char) : Option (String × String) :=
  (splitOnceChars c s.data).map (fun p => (String.mk p.1, String.mk p.2))

/-- Rust `str::trim`: strip leading and trailing whitespace. -/
def trimStr (s : String) : String :=
  String.mk (((s.data.dropWhile Char.isWhitespace).reverse.dropWhile Char.isWhitespace).reverse)

/-- Rust `str::to_lowercase` on the ASCII strings of this program. -/
def toLowerStr (s : String) : String :=
  String.mk (lowerChars s.data)

/-- Whether a string is empty (`str::is_empty`). -/
def isEmptyStr (s : String) : Bool :=
  s.data.isEmpty

/-- Whether a string starts with the given character (`str::starts_with`). -/
def startsWithChar (s : String) (c : Char) : Bool :=
  match s.data with
  | x :: _ => x = c
  | [] => false

/-- Rust `str::lines`: split the content on newlines. A trailing empty piece
or a carriage return before the newline is swallowed downstream, because the
parser trims every line and skips empty ones. -/
def linesOf (content : String) : List String :=
  (splitOnChar '\n' content.data).map String.mk

/-- Rust `str::replace` for a single-character pattern with a single-character
replacement. -/
def replaceChar (s : String) (from_c to_c : Char) : String :=
  String.mk (s.data.map (fun c => if c = from_c then to_c else c))

/-- Rust `split(' ')` on a string. -/
def splitSpaces (s : String) : List String :=
  (splitOnChar ' ' s.data).map String.mk

/-- Join with single spaces (`Vec::join(" ")`). -/
def joinSpace : List String → String
  | [] => ""
  | [x] => x
  | x :: xs => x ++ " " ++ joinSpace xs

/-- GameInfo::set_metadata_value: route one key/value pair to its field.
Unknown keys are ignored. -/
def set_metadata_value (gi : GameInfo) (key value : String) : GameInfo :=
  if key = "title" ∨ key = "name" ∨ key = "game" ∨ key = "game name" then
    { gi with title := value }
  else if key = "developer" ∨ key = "dev" then { gi with developer := some value }
  else if key = "publisher" ∨ key = "pub" then { gi with publisher := some value }
  else if key = "release" ∨ key = "release date" ∨ key = "date" then
    { gi with release_date := some value }
  else if key = "description" ∨ key = "desc" ∨ key = "about" then
    { gi with description := some value }
  else if key = "igdb" ∨ key = "igdb_id" ∨ key = "igdb id" then
    { gi with igdb_id := parse_u32 value.data }
  else gi

/-- Loop state of GameInfo::parse_metadata: the record being filled, the key
currently accumulating a multi-line value, and the accumulated text. -/
structure MetaAcc where
  gi : GameInfo
  current_key : Option String
  multiline_value : String

/-- One iteration of the line loop of GameInfo::parse_metadata. -/
def parse_metadata_step (acc : MetaAcc) (rawLine : String) : MetaAcc :=
  let line := trimStr rawLine
  if isEmptyStr line || startsWithChar line '#' then acc
  else
    match splitOnceStr line ':' with
    | some kv =>
      let acc1 : MetaAcc :=
        match acc.current_key with
        | some prev_key =>
          if acc.multiline_value ≠ "" then
            { gi := set_metadata_value acc.gi prev_key acc.multiline_value,
              current_key := none, multiline_value := "" }
          else { acc with current_key := none }
        | none => acc
      let key := toLowerStr (trimStr kv.1)
      let value := trimStr kv.2
      if isEmptyStr value then { acc1 with current_key := some key }
      else { acc1 with gi := set_metadata_value acc1.gi key value, current_key := none }
    | none =>
      match acc.current_key with
      | some _ =>
        { acc with
          multiline_value :=
            if acc.multiline_value ≠ "" then acc.multiline_value ++ "\n" ++ line else line }
      | none => acc

/-- Flush performed after the loop of GameInfo::parse_metadata: a pending
non-empty multi-line value is still assigned to its key. -/
def parse_metadata_finish (acc : MetaAcc) : GameInfo :=
  match acc.current_key with
  | some key =>
    if acc.multiline_value ≠ "" then set_metadata_value acc.gi key acc.multiline_value
    else acc.gi
  | none => acc.gi

/-- GameInfo::parse_metadata over an explicit list of lines. -/
def parse_metadata_lines (gi : GameInfo) (ls : List String) : GameInfo :=
  parse_metadata_finish (ls.foldl parse_metadata_step ⟨gi, none, ""⟩)

/-- GameInfo::parse_metadata: the source iterates `content.lines()`, which
splits on newlines (the per-line `trim` swallows any carriage return). -/
def parse_metadata (gi : GameInfo) (content : String) : GameInfo :=
  parse_metadata_lines gi (linesOf content)

/-! Record seeding of SmbConnection::get_game_info (src/repository/smb.rs). -/

/-- Capitalize the first character of a word, as the `first.to_uppercase()`
chain of the source does for its ASCII directory names. -/
def capitalizeWord (s : String) : String :=
  match s.data with
  | [] => ""
  | c :: rest => String.mk (c.toUpper :: rest)

/-- The title-casing fallback of get_game_info: underscores to spaces, then
capitalize each space-separated word. -/
def humanizeTitle (dir_name : String) : String :=
  joinSpace ((splitSpaces (replaceChar dir_name '_' ' ')).map capitalizeWord)

/-- Initial GameInfo literal of get_game_info: the title starts as the
directory name with underscores replaced by spaces. -/
def initial_game_info (dir_name : String) : GameInfo :=
  { id := dir_name, title := replaceChar dir_name '_' ' ', developer := none,
    publisher := none, release_date := none, description := none, igdb_id := none,
    files := [], versions := [], cover_image := none }

/-- Seeding phase of SmbConnection::get_game_info, before file scanning:
initialize the record from the directory name, parse the info-text file when
one was found, and apply the title-case fallback only when the title is
empty at that point. -/
def get_game_info_seed (dir_name : String) (info_content : Option String) : GameInfo :=
  let gi := initial_game_info dir_name
  let gi :=
    match info_content with
    | some content => parse_metadata gi content
    | none => gi
  if isEmptyStr gi.title then { gi with title := humanizeTitle dir_name } else gi

example : (get_game_info_seed "amid_evil" none).title = "amid evil" := by decide

example : humanizeTitle "amid_evil" = "Amid Evil" := by decide

example :
    (parse_metadata (initial_game_info "g") "description:\n  line one\nline two").description
      = some "line one\nline two" := by decide

/-! Metadata cache: src/metadata/cache.rs. -/

/-- Rust `Result` as used by the cache and handler (`anyhow::Result`). -/
inductive RustResult (ε α : Type)
  | ok (val : α)
  | err (e : ε)
deriving DecidableEq

/-- IGDB cover payload (struct `IgdbCover` of src/metadata/igdb.rs). -/
structure IgdbCover where
  id : Nat
  url : Option String
  image_id : String
deriving DecidableEq

/-- IGDB game payload (struct `IgdbGame`). Only the fields the cache and the
handler ever read (`id`, `name`, `cover`) are modelled; the remaining payload
fields (summary, companies, genres, ratings, …) are stored and re-serialized
opaquely by the source and never inspected by the operations verified here. -/
structure IgdbGame where
  id : Nat
  name : String
  cover : Option IgdbCover
deriving DecidableEq

/-- Cached metadata entry (struct `CachedMetadata`); `last_updated` is a
`u64` of epoch seconds. -/
structure CachedMetadata where
  game_id : String
  igdb_id : Option Nat
  igdb_data : Option IgdbGame
  cover_path : Option String
  last_updated : Nat
deriving DecidableEq

/-- A persisted metadata file: either it parses into a record or parsing
fails with a message (`serde_json::from_str` failure). -/
inductive DiskFile
  | parsed (m : CachedMetadata)
  | corrupt (msg : String)
deriving DecidableEq

/-- State of a `MetadataCache`: the in-memory map and the set of persisted
per-game files under `metadata/`. Both are association lists keyed by game
id (a deterministic stand-in for `HashMap` and for the directory). -/
structure CacheState where
  mem : List (String × CachedMetadata)
  disk : List (String × DiskFile)
deriving DecidableEq

/-- Lookup in an association list (`HashMap::get`). -/
def lookupA : List (String × β) → String → Option β
  | [], _ => none
  | p :: ps, k => if p.1 = k then some p.2 else lookupA ps k

/-- Insert or overwrite in an association list (`HashMap::insert`, or writing
one file of the metadata directory). -/
def insertA : List (String × β) → String → β → List (String × β)
  | [], k, v => [(k, v)]
  | p :: ps, k, v => if p.1 = k then (k, v) :: ps else p :: insertA ps k v

/-- MetadataCache::get_metadata: the in-memory map only. -/
def get_metadata (st : CacheState) (game_id : String) : Option CachedMetadata :=
  lookupA st.mem game_id

/-- MetadataCache::has_metadata. -/
def has_metadata (st : CacheState) (game_id : String) : Bool :=
  (get_metadata st game_id).isSome

/-- MetadataCache::create_metadata: a fresh empty record stamped with the
current epoch seconds. -/
def create_metadata (now : Nat) (game_id : String) : CachedMetadata :=
  { game_id := game_id, igdb_id := none, igdb_data := none, cover_path := none,
    last_updated := now }

/-- MetadataCache::load_metadata: in-memory entry first, else the persisted
file (a parse failure is surfaced), else a fresh record that is registered in
memory but not persisted. -/
def load_metadata (now : Nat) (st : CacheState) (game_id : String) :
    RustResult String CachedMetadata × CacheState :=
  match lookupA st.mem game_id with
  | some m => (RustResult.ok m, st)
  | none =>
    match lookupA st.disk game_id with
    | some (DiskFile.parsed m) =>
      (RustResult.ok m, { st with mem := insertA st.mem game_id m })
    | some (DiskFile.corrupt msg) => (RustResult.err msg, st)
    | none =>
      let m := create_metadata now game_id
      (RustResult.ok m, { st with mem := insertA st.mem game_id m })

/-- MetadataCache::save_metadata: the in-memory map is updated first, then
the record is serialized and written; `write_ok` abstracts whether the
serialization and filesystem write succeed. On failure the error is surfaced
while the in-memory insertion persists and the disk is untouched. -/
def save_metadata (write_ok : Bool) (st : CacheState) (m : CachedMetadata) :
    RustResult String Unit × CacheState :=
  let st1 : CacheState := { st with mem := insertA st.mem m.game_id m }
  if write_ok then
    (RustResult.ok (), { st1 with disk := insertA st1.disk m.game_id (DiskFile.parsed m) })
  else (RustResult.err "Failed to write metadata file", st1)

/-- MetadataCache::is_stale: a missing record is stale; otherwise the age in
seconds (`saturating_sub`, hence truncated subtraction) is divided by 86400
and the resulting whole-day count must exceed `days`. -/
def is_stale (st : CacheState) (now : Nat) (game_id : String) (days : Nat) : Bool :=
  match get_metadata st game_id with
  | some m =>
    let age_seconds := now - m.last_updated
    let age_days := age_seconds / 86400
    decide (age_days > days)
  | none => true

/-- MetadataCache::update_with_igdb: take the in-memory entry (or a fresh
one), fill in the IGDB fields, stamp `last_updated`, and save. -/
def update_with_igdb (now : Nat) (write_ok : Bool) (st : CacheState)
    (game_id : String) (g : IgdbGame) : RustResult String Unit × CacheState :=
  let m0 :=
    match get_metadata st game_id with
    | some m => m
    | none => create_metadata now game_id
  save_metadata write_ok st
    { m0 with igdb_id := some g.id, igdb_data := some g, last_updated := now }

/-- MetadataCache::update_cover_path: when an in-memory entry exists, set its
cover path, stamp `last_updated`, and save; otherwise silently succeed. -/
def update_cover_path (now : Nat) (write_ok : Bool) (st : CacheState)
    (game_id relative_path : String) : RustResult String Unit × CacheState :=
  match get_metadata st game_id with
  | some m =>
    save_metadata write_ok st
      { m with cover_path := some relative_path, last_updated := now }
  | none => (RustResult.ok (), st)

/-! Metadata handler: src/metadata/handler.rs. -/

/-- Metadata operation status (enum `MetadataStatus`). -/
inductive MetadataStatus
  | Started (game_id game_name : String)
  | Success (game_id game_name : String)
  | Failed (game_id game_name error : String)
  | Progress (completed total : Nat)
  | Completed (successful failed total : Nat)
deriving DecidableEq

/-- MetadataHandler::has_igdb_metadata. -/
def has_igdb_metadata (st : CacheState) (game_id : String) : Bool :=
  match get_metadata st game_id with
  | some m => m.igdb_data.isSome
  | none => false

/-- Outcome of one call to MetadataHandler::fetch_and_cache_metadata: the
cache afterwards, the returned `Result<bool>`, the emitted status events in
order, and how many times the IGDB search collaborator was invoked. -/
structure FetchOutcome where
  cache : CacheState
  result : RustResult String Bool
  events : List MetadataStatus
  search_calls : Nat
deriving DecidableEq

/-- MetadataHandler::fetch_and_cache_metadata. The external collaborator
`find_best_match` is a parameter from game name to its `Result<Option>`;
`write_ok` abstracts the filesystem outcome of the save inside
`update_with_igdb`; `now` is the current epoch second. The `last_refresh`
instant map of the handler is only read by `was_recently_refreshed`, which no
verified operation calls, so it is not carried here. -/
def fetch_and_cache_metadata (best_match : String → RustResult String (Option IgdbGame))
    (write_ok : Bool) (now : Nat) (st : CacheState) (game_id game_name : String) :
    FetchOutcome :=
  let started := MetadataStatus.Started game_id game_name
  if has_igdb_metadata st game_id && ! is_stale st now game_id 30 then
    { cache := st, result := RustResult.ok true,
      events := [started, MetadataStatus.Success game_id game_name], search_calls := 0 }
  else
    match best_match game_name with
    | RustResult.ok none =>
      { cache := st, result := RustResult.ok false,
        events := [started,
          MetadataStatus.Failed game_id game_name "No matching game found on IGDB"],
        search_calls := 1 }
    | RustResult.err e =>
      { cache := st, result := RustResult.err e,
        events := [started, MetadataStatus.Failed game_id game_name ("IGDB API error: " ++ e)],
        search_calls := 1 }
    | RustResult.ok (some g) =>
      let u := update_with_igdb now write_ok st game_id g
      match u.1 with
      | RustResult.ok _ =>
        { cache := u.2, result := RustResult.ok true,
          events := [started, MetadataStatus.Success game_id game_name], search_calls := 1 }
      | RustResult.err e =>
        { cache := u.2, result := RustResult.err e, events := [started], search_calls := 1 }

/-- MetadataHandler::download_cover. The byte download and the existence
check on the cover file are external effects, abstracted by `cover_exists`
and `dl_result`; everything else follows the source: no cover reference or
an already-present file short-circuits, a failed download degrades to
`Ok(false)`, and a successful one records the relative path (whose save may
itself fail and propagate). -/
def download_cover (cover_exists : Bool) (dl_result : RustResult String Unit)
    (now : Nat) (write_ok : Bool) (st : CacheState) (game_id : String) :
    RustResult String Bool × CacheState :=
  let cover_image_id :=
    ((get_metadata st game_id).bind (fun m => m.igdb_data)).bind (fun g => g.cover)
  match cover_image_id with
  | none => (RustResult.ok false, st)
  | some _cover =>
    if cover_exists then (RustResult.ok true, st)
    else
      match dl_result with
      | RustResult.ok _ =>
        let u := update_cover_path now write_ok st game_id
          ("images/" ++ game_id ++ "_cover.jpg")
        match u.1 with
        | RustResult.ok _ => (RustResult.ok true, u.2)
        | RustResult.err e => (RustResult.err e, u.2)
      | RustResult.err _e => (RustResult.ok false, st)

/-- Accumulator of the batch loop of MetadataHandler::update_library_metadata. -/
structure BatchState where
  cache : CacheState
  updated : Nat
  failed : Nat
  events : List MetadataStatus
deriving DecidableEq

/-- Body of the loop of update_library_metadata for the game at index `i`:
emit Started, refresh the game when its metadata is missing or stale
(counting one success or failure, with a best-effort cover download whose
result is discarded), otherwise emit Success directly, then emit Progress. -/
def update_library_step (best_match : String → RustResult String (Option IgdbGame))
    (write_ok : String → Bool) (cover_exists : String → Bool)
    (dl_result : String → RustResult String Unit) (now total : Nat)
    (acc : BatchState) (ig : Nat × (String × String)) : BatchState :=
  let i := ig.1
  let game_id := ig.2.1
  let game_name := ig.2.2
  let acc1 : BatchState :=
    { acc with events := acc.events ++ [MetadataStatus.Started game_id game_name] }
  let acc2 : BatchState :=
    if ! has_igdb_metadata acc1.cache game_id || is_stale acc1.cache now game_id 30 then
      let fo := fetch_and_cache_metadata best_match (write_ok game_id) now acc1.cache
        game_id game_name
      match fo.result with
      | RustResult.ok true =>
        let dc := download_cover (cover_exists game_id) (dl_result game_id) now
          (write_ok game_id) fo.cache game_id
        { cache := dc.2, updated := acc1.updated + 1, failed := acc1.failed,
          events := acc1.events ++ fo.events ++ [MetadataStatus.Success game_id game_name] }
      | RustResult.ok false =>
        { cache := fo.cache, updated := acc1.updated, failed := acc1.failed + 1,
          events := acc1.events ++ fo.events ++
            [MetadataStatus.Failed game_id game_name "Could not find metadata"] }
      | RustResult.err e =>
        { cache := fo.cache, updated := acc1.updated, failed := acc1.failed + 1,
          events := acc1.events ++ fo.events ++ [MetadataStatus.Failed game_id game_name e] }
    else
      { acc1 with events := acc1.events ++ [MetadataStatus.Success game_id game_name] }
  { acc2 with events := acc2.events ++ [MetadataStatus.Progress (i + 1) total] }

/-- MetadataHandler::update_library_metadata: initial Progress, the loop over
the enumerated games, then exactly one Completed event; the function itself
always returns `Ok(())`. -/
def update_library_metadata (best_match : String → RustResult String (Option IgdbGame))
    (write_ok : String → Bool) (cover_exists : String → Bool)
    (dl_result : String → RustResult String Unit) (now : Nat)
    (st : CacheState) (games : List (String × String)) :
    BatchState × RustResult String Unit :=
  let total := games.length
  let init : BatchState :=
    { cache := st, updated := 0, failed := 0,
      events := [MetadataStatus.Progress 0 total] }
  let acc := games.enum.foldl
    (update_library_step best_match write_ok cover_exists dl_result now total) init
  ({ acc with
      events := acc.events ++ [MetadataStatus.Completed acc.updated acc.failed total] },
   RustResult.ok ())

/-! Theorems. -/

/-- Looking up the key just inserted finds the inserted value. -/
theorem lookupA_insertA_self (l : List (String × β)) (k : String) (v : β) :
    lookupA (insertA l k v) k = some v := by
  induction l with
  | nil => simp [insertA, lookupA]
  | cons p ps ih =>
    by_cases h : p.1 = k
    · simp [insertA, h, lookupA]
    · simp [insertA, h, lookupA, ih]

/-- C9: for an id with no in-memory entry and no persisted record,
load_metadata returns a fresh empty record stamped `now`, registers it in the
in-memory map, and leaves the on-disk store unchanged. -/
theorem load_metadata_fresh (st : CacheState) (now : Nat) (id : String)
    (hmem : lookupA st.mem id = none) (hdisk : lookupA st.disk id = none) :
    (load_metadata now st id).1 =
      RustResult.ok
        { game_id := id, igdb_id := none, igdb_data := none, cover_path := none,
          last_updated := now } ∧
    (load_metadata now st id).2.disk = st.disk ∧
    lookupA (load_metadata now st id).2.mem id =
      some
        { game_id := id, igdb_id := none, igdb_data := none, cover_path := none,
          last_updated := now } := by
  simp [load_metadata, hmem, hdisk, create_metadata, lookupA_insertA_self]

theorem load_metadata_fresh_witness :
    (load_metadata 42 ⟨[], []⟩ "hades").1 =
      RustResult.ok
        { game_id := "hades", igdb_id := none, igdb_data := none, cover_path := none,
          last_updated := 42 } ∧
    (load_metadata 42 ⟨[], []⟩ "hades").2.disk = [] ∧
    lookupA (load_metadata 42 ⟨[], []⟩ "hades").2.mem "hades" =
      some
        { game_id := "hades", igdb_id := none, igdb_data := none, cover_path := none,
          last_updated := 42 } :=
  load_metadata_fresh ⟨[], []⟩ 42 "hades" rfl rfl

/-- C10: save_metadata updates the in-memory map before attempting the disk
write, so on a failed write the error is surfaced while the overlay already
holds the new record — a subsequent get_metadata or load_metadata returns it
although the disk is unchanged. -/
theorem save_metadata_failure_overlay (st : CacheState) (m : CachedMetadata) (now : Nat) :
    (save_metadata false st m).1 = RustResult.err "Failed to write metadata file" ∧
    (save_metadata false st m).2.disk = st.disk ∧
    get_metadata (save_metadata false st m).2 m.game_id = some m ∧
    (load_metadata now (save_metadata false st m).2 m.game_id).1 = RustResult.ok m := by
  simp [save_metadata, get_metadata, load_metadata, lookupA_insertA_self]

/-- In-memory cache with one record for "g" last updated at epoch second 0. -/
def c3_cache : CacheState :=
  ⟨[("g", { game_id := "g", igdb_id := none, igdb_data := none, cover_path := none,
            last_updated := 0 })], []⟩

/-- C3, counterexample: a record exists for "g" with age exactly
`30 * 86400 + 1` seconds, yet is_stale answers `false`, because the source
compares whole days (`age / 86400 > days`), not seconds. -/
theorem is_stale_plus_one_second_not_stale :
    get_metadata c3_cache "g" =
      some { game_id := "g", igdb_id := none, igdb_data := none, cover_path := none,
             last_updated := 0 } ∧
    is_stale c3_cache (30 * 86400 + 1) "g" 30 = false := by decide

/-- C3, amended: is_stale is true iff no in-memory record exists or the age
`now - lastUpdated` (saturating) reaches a full `maxAgeDays + 1` days, i.e.
`86400 * (maxAgeDays + 1)` seconds; in particular it is still false at age
`maxAgeDays * 86400 + 1`. -/
theorem is_stale_iff_whole_days (st : CacheState) (now : Nat) (id : String) (days : Nat) :
    is_stale st now id days = true ↔
      match get_metadata st id with
      | none => True
      | some m => 86400 * (days + 1) ≤ now - m.last_updated := by
  unfold is_stale
  cases h : get_metadata st id with
  | none => simp
  | some m =>
    simp only [decide_eq_true_eq]
    rw [gt_iff_lt, Nat.lt_iff_add_one_le,
      Nat.le_div_iff_mul_le (by norm_num : 0 < 86400), Nat.mul_comm]

/-- The installer file of scenario B. -/
def c1_file : GameFile :=
  ⟨"v1.2.3_setup.exe", "game/v1.2.3_setup.exe", 100, FileType.Installer⟩

/-- C1: evaluating version resolution at the failing input
`v1.2.3_setup.exe`. The emitted version is named `Version 1.2.3` but its
build number is 1 — the first integer re-extracted from the display name —
while the dotted encoding `1*10^6 + 2*10^4 + 3*10^2 = 1020300` that the
claim (and the first pass of the source) computes is discarded: the version
map keeps only file lists, and `groupBuild` recomputes the build from the
name. -/
theorem parse_versions_dotted_build_bug :
    parse_versions [c1_file] = [⟨"Version 1.2.3", 1, [c1_file], []⟩] ∧
    firstPassBuild "1.2.3".data none = 1 * 10 ^ 6 + 2 * 10 ^ 4 + 3 * 10 ^ 2 ∧
    (1 : Nat) ≠ 1 * 10 ^ 6 + 2 * 10 ^ 4 + 3 * 10 ^ 2 := by decide

/-- C7: evaluating the record seeding at directory `amid_evil` with no
info-text file. The id is the directory name, but the title only has
underscores replaced (`amid evil`): the title-case fallback of the source is
guarded by `title.is_empty()`, which never holds right after the title was
initialized from the directory name, so the humanized `Amid Evil` the claim
describes is not produced. -/
theorem get_game_info_title_not_humanized :
    (get_game_info_seed "amid_evil" none).id = "amid_evil" ∧
    (get_game_info_seed "amid_evil" none).title = "amid evil" ∧
    humanizeTitle "amid_evil" = "Amid Evil" ∧
    ("amid evil" : String) ≠ "Amid Evil" := by decide

/-- Membership is preserved by sorted insertion. -/
theorem mem_insertSorted (le : α → α → Bool) (a x : α) (l : List α) :
    x ∈ insertSorted le a l ↔ x = a ∨ x ∈ l := by
  induction l with
  | nil => simp [insertSorted]
  | cons b bs ih =>
    by_cases h : le a b
    · simp [insertSorted, h]
    · simp only [insertSorted, h]
      simp [ih]
      tauto

/-- Sorted insertion preserves pairwise ordering for a transitive, total
boolean relation. -/
theorem pairwise_insertSorted (le : α → α → Bool)
    (htrans : ∀ a b c, le a b = true → le b c = true → le a c = true)
    (htot : ∀ a b, le a b = true ∨ le b a = true)
    (a : α) (l : List α) (h : l.Pairwise (fun x y => le x y = true)) :
    (insertSorted le a l).Pairwise (fun x y => le x y = true) := by
  induction l with
  | nil => simp [insertSorted]
  | cons b bs ih =>
    rcases List.pairwise_cons.mp h with ⟨hb, hbs⟩
    by_cases hab : le a b
    · simp only [insertSorted, hab, if_true]
      refine List.pairwise_cons.mpr ⟨?_, h⟩
      intro x hx
      rcases List.mem_cons.mp hx with rfl | hx
      · exact hab
      · exact htrans a b x hab (hb x hx)
    · simp only [insertSorted, hab, if_false]
      refine List.pairwise_cons.mpr ⟨?_, ih hbs⟩
      intro x hx
      rcases (mem_insertSorted le a x bs).mp hx with rfl | hx
      · rcases htot x b with h1 | h2
        · exact absurd h1 hab
        · exact h2
      · exact hb x hx

/-- The stable insertion sort is pairwise sorted for a transitive, total
boolean relation. -/
theorem pairwise_stableSort (le : α → α → Bool)
    (htrans : ∀ a b c, le a b = true → le b c = true → le a c = true)
    (htot : ∀ a b, le a b = true ∨ le b a = true) (l : List α) :
    (stableSort le l).Pairwise (fun x y => le x y = true) := by
  induction l with
  | nil => simp [stableSort]
  | cons a l ih => exact pairwise_insertSorted le htrans htot a (stableSort le l) ih

/-- Membership is preserved by the stable sort. -/
theorem mem_stableSort (le : α → α → Bool) (x : α) (l : List α) :
    x ∈ stableSort le l ↔ x ∈ l := by
  induction l with
  | nil => simp [stableSort]
  | cons a l ih => simp [stableSort, mem_insertSorted, ih]

/-- Two installers whose dotted versions differ only below the major
component: the groups are distinct but both builds degrade to 1. -/
def c4_files : List GameFile :=
  [⟨"v1.2_setup.exe", "g/a", 1, FileType.Installer⟩,
   ⟨"v1.3_setup.exe", "g/b", 1, FileType.Installer⟩]

/-- C4, counterexample: the two distinct versions `Version 1.2` and
`Version 1.3` both receive buildNumber 1, so the resulting list is not
strictly descending in adjacent build numbers. -/
theorem parse_versions_not_strictly_descending :
    (parse_versions c4_files).map (fun v => v.build) = [1, 1] ∧
    ¬ (parse_versions c4_files).Chain' (fun a b => b.build < a.build) := by
  constructor
  · decide
  · intro h
    have hv : (parse_versions c4_files).map (fun v => v.build) = [1, 1] := by decide
    have h2 : ((parse_versions c4_files).map (fun v => v.build)).Chain' (fun a b => b < a) :=
      (List.chain'_map _).mpr h
    rw [hv] at h2
    have h12 := (List.chain'_cons.mp h2).1
    omega

/-- C4, amended: for every file set, the versions produced by
parse_versions are sorted by buildNumber in non-increasing (descending,
ties allowed) order — every version's buildNumber is greater than or equal
to every later version's. -/
theorem parse_versions_sorted_nonincreasing (files : List GameFile) :
    (parse_versions files).Pairwise (fun a b => b.build ≤ a.build) := by
  have h := pairwise_stableSort versionLe
    (by intro a b c h1 h2; simp [versionLe] at *; omega)
    (by intro a b; simp [versionLe]; omega)
    (withDefaultOf files)
  unfold parse_versions
  exact h.imp (by intro a b hab; simpa [versionLe] using hab)

/-- Accumulation of trimmed continuation lines into a multi-line value,
exactly as the loop of parse_metadata appends them. -/
def mlAppend (v : String) (ls : List String) : String :=
  ls.foldl (fun acc l => if acc ≠ "" then acc ++ "\n" ++ trimStr l else trimStr l) v

/-- A string with a non-empty left part stays non-empty under append. -/
theorem append_ne_empty_left (a b : String) (h : a ≠ "") : a ++ b ≠ "" := by
  intro hc
  apply h
  have hd := congrArg String.data hc
  rw [String.data_append] at hd
  have ha : a.data = [] := (List.append_eq_nil.mp hd).1
  cases a with
  | mk d =>
    cases ha
    rfl

/-- A line whose trim is not reported empty is a non-empty string. -/
theorem ne_empty_of_isEmptyStr_false (s : String) (h : isEmptyStr s = false) : s ≠ "" := by
  intro hc
  rw [hc] at h
  simp [isEmptyStr] at h

/-- Accumulating further lines never empties a non-empty multi-line value. -/
theorem mlAppend_ne_empty (ls : List String) :
    ∀ v : String, v ≠ "" → mlAppend v ls ≠ "" := by
  induction ls with
  | nil => intro v hv; simpa [mlAppend] using hv
  | cons l ls ih =>
    intro v hv
    have hstep : mlAppend v (l :: ls) = mlAppend (v ++ "\n" ++ trimStr l) ls := by
      simp [mlAppend, hv]
    rw [hstep]
    exact ih _ (append_ne_empty_left _ _ (append_ne_empty_left _ _ hv))

/-- A continuation line of a multi-line value: non-empty after trimming, not
a comment, and containing no colon. -/
def contLine (l : String) : Prop :=
  isEmptyStr (trimStr l) = false ∧ startsWithChar (trimStr l) '#' = false ∧
    splitOnceStr (trimStr l) ':' = none

instance (l : String) : Decidable (contLine l) := by
  unfold contLine
  infer_instance

/-- Processing one continuation line while a key is accumulating appends the
trimmed line to the multi-line value. -/
theorem parse_metadata_step_cont (gi : GameInfo) (k : String) (v : String) (l : String)
    (hl : contLine l) :
    parse_metadata_step ⟨gi, some k, v⟩ l =
      ⟨gi, some k, if v ≠ "" then v ++ "\n" ++ trimStr l else trimStr l⟩ := by
  rcases hl with ⟨h1, h2, h3⟩
  simp [parse_metadata_step, h1, h2, h3]

/-- Folding the step over continuation lines only grows the accumulator. -/
theorem parse_metadata_foldl_cont (gi : GameInfo) (k : String) (ls : List String) :
    ∀ v : String, (∀ l ∈ ls, contLine l) →
      ls.foldl parse_metadata_step ⟨gi, some k, v⟩ = ⟨gi, some k, mlAppend v ls⟩ := by
  induction ls with
  | nil => intro v _; simp [mlAppend]
  | cons l ls ih =>
    intro v h
    rw [List.foldl_cons, parse_metadata_step_cont gi k v l (h l (by simp))]
    rw [ih _ (fun x hx => h x (by simp [hx]))]
    by_cases hv : v = ""
    · simp [mlAppend, hv]
    · simp [mlAppend, hv]

/-- C8: a key line with an empty value (here `description:`) begins a
multi-line value accumulated from the subsequent non-key lines, and when the
input ends while that non-empty value is accumulating, the flush after the
loop still assigns it to the key. -/
theorem parse_metadata_multiline_flush (gi : GameInfo) (ls : List String)
    (hne : ls ≠ []) (h : ∀ l ∈ ls, contLine l) :
    (parse_metadata_lines gi ("description:" :: ls)).description =
      some (mlAppend "" ls) := by
  unfold parse_metadata_lines
  rw [List.foldl_cons]
  have hfirst : parse_metadata_step ⟨gi, none, ""⟩ "description:" =
      ⟨gi, some "description", ""⟩ := rfl
  rw [hfirst, parse_metadata_foldl_cont gi "description" ls "" h]
  have hml : mlAppend "" ls ≠ "" := by
    cases ls with
    | nil => exact absurd rfl hne
    | cons l ls =>
      have hl := (h l (by simp)).1
      have : mlAppend "" (l :: ls) = mlAppend (trimStr l) ls := by simp [mlAppend]
      rw [this]
      exact mlAppend_ne_empty ls _ (ne_empty_of_isEmptyStr_false _ hl)
  simp only [parse_metadata_finish, hml, if_true, ne_eq, not_false_iff]
  simp [set_metadata_value]

theorem parse_metadata_multiline_flush_witness :
    (parse_metadata_lines (initial_game_info "g")
        ["description:", "  line one", "line two"]).description =
      some "line one\nline two" :=
  (parse_metadata_multiline_flush (initial_game_info "g") ["  line one", "line two"]
      (by decide) (by decide)).trans (by decide)

/-- Closed form of the patch-assignment fold: every version receives exactly
the patches that apply to its build, appended in patch order. -/
theorem attachPatch_foldl (ps : List GameFile) :
    ∀ vs : List GameVersion,
      ps.foldl attachPatch vs =
        vs.map (fun v =>
          { v with required_patches :=
              v.required_patches ++ ps.filter (fun p => patchApplies p v.build) }) := by
  induction ps with
  | nil =>
    intro vs
    induction vs with
    | nil => rfl
    | cons a l ih => simp [ih]
  | cons p ps ih =>
    intro vs
    rw [List.foldl_cons, show attachPatch vs p =
      vs.map (fun v =>
        if patchApplies p v.build then
          { v with required_patches := v.required_patches ++ [p] }
        else v) from rfl, ih, List.map_map]
    have hfun :
        ((fun v : GameVersion =>
            { v with required_patches :=
                v.required_patches ++ ps.filter (fun q => patchApplies q v.build) }) ∘
          (fun v : GameVersion =>
            if patchApplies p v.build then
              { v with required_patches := v.required_patches ++ [p] }
            else v)) =
        (fun v : GameVersion =>
          { v with required_patches :=
              v.required_patches ++ (p :: ps).filter (fun q => patchApplies q v.build) }) := by
      funext v
      by_cases h : patchApplies p v.build
      · simp [Function.comp, h, List.filter_cons]
      · simp [Function.comp, h, List.filter_cons]
    rw [hfun]

/-- Pushing into the version map never leaves it empty. -/
theorem mapPush_ne_nil (m : List (String × List GameFile)) (k : String) (f : GameFile) :
    mapPush m k f ≠ [] := by
  cases m with
  | nil => simp [mapPush, List.find?]
  | cons p ps =>
    unfold mapPush
    split <;> simp

/-- Grouping an installer never leaves the version map empty. -/
theorem addInstaller_ne_nil (m : List (String × List GameFile)) (f : GameFile) :
    addInstaller m f ≠ [] := by
  unfold addInstaller
  cases extractVersion (lowerChars f.name.data) with
  | some g => exact mapPush_ne_nil m _ f
  | none => exact mapPush_ne_nil m _ f

/-- The grouping fold preserves non-emptiness of the map. -/
theorem foldl_addInstaller_ne_nil (l : List GameFile) :
    ∀ m : List (String × List GameFile), m ≠ [] → l.foldl addInstaller m ≠ [] := by
  induction l with
  | nil => intro m hm; simpa using hm
  | cons f fs ih => intro m _; exact ih (addInstaller m f) (addInstaller_ne_nil m f)

/-- The version map is empty exactly when there is no installer file. -/
theorem versionMapOf_eq_nil_iff (files : List GameFile) :
    versionMapOf files = [] ↔ installersOf files = [] := by
  unfold versionMapOf
  constructor
  · intro h
    cases hI : installersOf files with
    | nil => rfl
    | cons f fs =>
      rw [hI, List.foldl_cons] at h
      exact absurd h (foldl_addInstaller_ne_nil fs _ (addInstaller_ne_nil [] f))
  · intro h
    rw [h]
    rfl

/-- The base version list is empty exactly when there is no installer file. -/
theorem baseVersionsOf_eq_nil_iff (files : List GameFile) :
    baseVersionsOf files = [] ↔ installersOf files = [] := by
  unfold baseVersionsOf
  rw [List.map_eq_nil_iff]
  exact versionMapOf_eq_nil_iff files

/-- When at least one patch exists, every emitted version's required patches
are exactly the patches that apply to its build. -/
theorem requiredPatches_of_mem (files : List GameFile) (v : GameVersion)
    (hv : v ∈ withDefaultOf files) (hp : patchesOf files ≠ []) :
    v.required_patches = (patchesOf files).filter (fun q => patchApplies q v.build) := by
  unfold withDefaultOf at hv
  by_cases hg : (patchedVersionsOf files).isEmpty ∧ ¬ (installersOf files).isEmpty
  · exfalso
    rcases hg with ⟨hpe, hine⟩
    have hbase : baseVersionsOf files = [] := by
      unfold patchedVersionsOf at hpe
      by_cases hg2 : ¬ (patchesOf files).isEmpty ∧ ¬ (baseVersionsOf files).isEmpty
      · rw [if_pos hg2, attachPatch_foldl] at hpe
        exact List.map_eq_nil_iff.mp (List.isEmpty_iff.mp hpe)
      · rw [if_neg hg2] at hpe
        exact List.isEmpty_iff.mp hpe
    exact hine (by simp [(baseVersionsOf_eq_nil_iff files).mp hbase])
  · rw [if_neg hg] at hv
    unfold patchedVersionsOf at hv
    have hgP : ¬ (patchesOf files).isEmpty := by
      simpa [List.isEmpty_iff] using hp
    by_cases hbe : (baseVersionsOf files).isEmpty
    · rw [if_neg (by tauto)] at hv
      rw [List.isEmpty_iff.mp hbe] at hv
      simp at hv
    · rw [if_pos ⟨hgP, hbe⟩, attachPatch_foldl] at hv
      rcases List.mem_map.mp hv with ⟨v0, hv0, rfl⟩
      have hrp : v0.required_patches = [] := by
        unfold baseVersionsOf at hv0
        rcases List.mem_map.mp hv0 with ⟨g, _, rfl⟩
        rfl
      dsimp only
      rw [hrp]
      simp

/-- C2: for every patch file processed during version resolution and every
emitted version, a patch whose lowercased name matches the from/to pattern
is in the version's required patches exactly when the version's build equals
the parsed `from` capture (defaulting to 0 when unparsable), and a patch
whose name does not match is in every version's required patches. -/
theorem parse_versions_patch_assignment (files : List GameFile) (p : GameFile)
    (v : GameVersion) (hp : p ∈ files) (hpt : p.file_type = FileType.Patch)
    (hv : v ∈ parse_versions files) :
    (∀ fromStr toStr,
        rxFromTo (lowerChars p.name.data) = some (fromStr, toStr) →
        (p ∈ v.required_patches ↔ v.build = (parse_u32 fromStr).getD 0)) ∧
    (rxFromTo (lowerChars p.name.data) = none → p ∈ v.required_patches) := by
  have hpmem : p ∈ patchesOf files := by
    unfold patchesOf
    rw [List.mem_filter]
    exact ⟨hp, by simp [hpt]⟩
  have hpne : patchesOf files ≠ [] := by
    intro hc
    rw [hc] at hpmem
    simp at hpmem
  have hv2 : v ∈ withDefaultOf files := by
    unfold parse_versions at hv
    exact (mem_stableSort versionLe v _).mp hv
  have hchar := requiredPatches_of_mem files v hv2 hpne
  constructor
  · intro fromStr toStr hft
    rw [hchar, List.mem_filter]
    constructor
    · intro hmem
      have happ := hmem.2
      unfold patchApplies at happ
      rw [hft] at happ
      simpa using happ
    · intro hb
      refine ⟨hpmem, ?_⟩
      unfold patchApplies
      rw [hft]
      simpa using hb
  · intro hft
    rw [hchar, List.mem_filter]
    refine ⟨hpmem, ?_⟩
    unfold patchApplies
    rw [hft]

/-- Installer of build 100 (scenario C). -/
def c2_f100 : GameFile := ⟨"setup_build_100.exe", "g/a", 1, FileType.Installer⟩

/-- Installer of build 200 (scenario C). -/
def c2_f200 : GameFile := ⟨"setup_build_200.exe", "g/b", 1, FileType.Installer⟩

/-- The from/to patch of scenario C. -/
def c2_patch : GameFile := ⟨"patch_build_100_to_build_200.exe", "g/p", 1, FileType.Patch⟩

/-- A patch whose name matches no from/to pattern (scenario D). -/
def c2_hotfix : GameFile := ⟨"hotfix.zip", "g/q", 1, FileType.Patch⟩

/-- Files of scenario C. -/
def c2_filesC : List GameFile := [c2_f100, c2_f200, c2_patch]

/-- Files of scenario D. -/
def c2_filesD : List GameFile := [c2_f100, c2_f200, c2_hotfix]

/-- The build-100 version emitted in scenario C. -/
def c2_v100C : GameVersion := ⟨"Build 100", 100, [c2_f100], [c2_patch]⟩

/-- The build-200 version emitted in scenario C. -/
def c2_v200C : GameVersion := ⟨"Build 200", 200, [c2_f200], []⟩

/-- The build-100 version emitted in scenario D. -/
def c2_v100D : GameVersion := ⟨"Build 100", 100, [c2_f100], [c2_hotfix]⟩

/-- The build-200 version emitted in scenario D. -/
def c2_v200D : GameVersion := ⟨"Build 200", 200, [c2_f200], [c2_hotfix]⟩

theorem parse_versions_patch_assignment_witness :
    (c2_patch ∈ c2_v100C.required_patches ↔ c2_v100C.build = (parse_u32 "100".data).getD 0) ∧
    (c2_patch ∈ c2_v200C.required_patches ↔ c2_v200C.build = (parse_u32 "100".data).getD 0) ∧
    c2_hotfix ∈ c2_v100D.required_patches ∧ c2_hotfix ∈ c2_v200D.required_patches :=
  ⟨(parse_versions_patch_assignment c2_filesC c2_patch c2_v100C (by decide) (by decide)
      (by decide)).1 "100".data "200".data (by decide),
   (parse_versions_patch_assignment c2_filesC c2_patch c2_v200C (by decide) (by decide)
      (by decide)).1 "100".data "200".data (by decide),
   (parse_versions_patch_assignment c2_filesD c2_hotfix c2_v100D (by decide) (by decide)
      (by decide)).2 (by decide),
   (parse_versions_patch_assignment c2_filesD c2_hotfix c2_v200D (by decide) (by decide)
      (by decide)).2 (by decide)⟩

/-- Two immediate calls of fetch_and_cache_metadata with the same clock and
collaborator, the second on the cache left by the first. -/
def fetchTwice (bm : String → RustResult String (Option IgdbGame)) (wOk : Bool)
    (now : Nat) (st : CacheState) (id nm : String) : FetchOutcome × FetchOutcome :=
  let r1 := fetch_and_cache_metadata bm wOk now st id nm
  (r1, fetch_and_cache_metadata bm wOk now r1.cache id nm)

/-- A collaborator that finds no match. -/
def c6_no_match : String → RustResult String (Option IgdbGame) :=
  fun _ => RustResult.ok none

/-- C6, counterexample: when the search finds no match, nothing is cached,
so two successive calls with no staleness elapsed invoke the collaborator
twice — more than the claimed at-most-once. -/
theorem fetch_and_cache_two_searches :
    (fetchTwice c6_no_match true 1000 ⟨[], []⟩ "g" "n").1.search_calls +
        (fetchTwice c6_no_match true 1000 ⟨[], []⟩ "g" "n").2.search_calls = 2 ∧
    ¬ ((fetchTwice c6_no_match true 1000 ⟨[], []⟩ "g" "n").1.search_calls +
        (fetchTwice c6_no_match true 1000 ⟨[], []⟩ "g" "n").2.search_calls ≤ 1) := by
  decide

/-- The cache-hit short circuit of fetch_and_cache_metadata: fresh cached
enrichment means Success, `true`, and no collaborator call. -/
theorem fetch_hit (bm : String → RustResult String (Option IgdbGame)) (wOk : Bool)
    (now : Nat) (st : CacheState) (id nm : String)
    (h1 : has_igdb_metadata st id = true) (h2 : is_stale st now id 30 = false) :
    fetch_and_cache_metadata bm wOk now st id nm =
      ⟨st, RustResult.ok true,
        [MetadataStatus.Started id nm, MetadataStatus.Success id nm], 0⟩ := by
  unfold fetch_and_cache_metadata
  rw [if_pos (by rw [h1, h2]; rfl)]

/-- After a call of fetch_and_cache_metadata that returns `Ok(true)` on a
key-consistent cache, the resulting cache holds fresh enrichment for the id
and the call made at most one search. -/
theorem fetch_ok_true_cache (bm : String → RustResult String (Option IgdbGame)) (wOk : Bool)
    (now : Nat) (st : CacheState) (id nm : String)
    (hcons : ∀ m, lookupA st.mem id = some m → m.game_id = id)
    (hres : (fetch_and_cache_metadata bm wOk now st id nm).result = RustResult.ok true) :
    has_igdb_metadata (fetch_and_cache_metadata bm wOk now st id nm).cache id = true ∧
    is_stale (fetch_and_cache_metadata bm wOk now st id nm).cache now id 30 = false ∧
    (fetch_and_cache_metadata bm wOk now st id nm).search_calls ≤ 1 := by
  unfold fetch_and_cache_metadata at hres ⊢
  by_cases hhit : (has_igdb_metadata st id && ! is_stale st now id 30) = true
  · rw [if_pos hhit] at hres ⊢
    have h12 : has_igdb_metadata st id = true ∧ is_stale st now id 30 = false := by
      simpa using hhit
    exact ⟨h12.1, h12.2, by simp⟩
  · rw [if_neg hhit] at hres ⊢
    cases hbm : bm nm with
    | err e => rw [hbm] at hres; simp at hres
    | ok o =>
      cases o with
      | none => rw [hbm] at hres; simp at hres
      | some g =>
        rw [hbm] at hres
        cases wOk with
        | false => simp [update_with_igdb, save_metadata] at hres
        | true =>
          cases hm0 : get_metadata st id with
          | some m =>
            have hid : m.game_id = id := hcons m (by simpa [get_metadata] using hm0)
            simp only [update_with_igdb, save_metadata, hm0]
            refine ⟨?_, ?_, by simp⟩
            · simp [has_igdb_metadata, get_metadata, hid, lookupA_insertA_self]
            · simp [is_stale, get_metadata, hid, lookupA_insertA_self, Nat.sub_self]
          | none =>
            simp only [update_with_igdb, save_metadata, hm0]
            refine ⟨?_, ?_, by simp⟩
            · simp [has_igdb_metadata, get_metadata, create_metadata, lookupA_insertA_self]
            · simp [is_stale, get_metadata, create_metadata, lookupA_insertA_self,
                Nat.sub_self]

/-- C6, amended: on a cache whose entry for the id (if any) records that very
id, two successive fetch_and_cache_metadata calls with no staleness elapsed
invoke the collaborator search at most once in total provided the first call
returned `true`; and whenever cached enrichment exists and is not stale
under the 30-day threshold, the call emits Success and returns `true`
without any collaborator call and without touching the cache. -/
theorem fetch_and_cache_idempotent (bm : String → RustResult String (Option IgdbGame))
    (wOk : Bool) (now : Nat) (st : CacheState) (id nm : String)
    (hcons : ∀ m, lookupA st.mem id = some m → m.game_id = id) :
    ((fetchTwice bm wOk now st id nm).1.result = RustResult.ok true →
      (fetchTwice bm wOk now st id nm).1.search_calls +
        (fetchTwice bm wOk now st id nm).2.search_calls ≤ 1) ∧
    (has_igdb_metadata st id = true → is_stale st now id 30 = false →
      (fetchTwice bm wOk now st id nm).1 =
        ⟨st, RustResult.ok true,
          [MetadataStatus.Started id nm, MetadataStatus.Success id nm], 0⟩) := by
  constructor
  · intro hres
    obtain ⟨h1, h2, hc⟩ := fetch_ok_true_cache bm wOk now st id nm hcons hres
    show (fetch_and_cache_metadata bm wOk now st id nm).search_calls +
      (fetch_and_cache_metadata bm wOk now
        (fetch_and_cache_metadata bm wOk now st id nm).cache id nm).search_calls ≤ 1
    rw [fetch_hit bm wOk now _ id nm h1 h2]
    simpa using hc
  · intro h1 h2
    exact fetch_hit bm wOk now st id nm h1 h2

/-- A collaborator that always returns the same match. -/
def c6_ok_match : String → RustResult String (Option IgdbGame) :=
  fun n => RustResult.ok (some ⟨7, n, none⟩)

/-- A cache already holding fresh enrichment for "g". -/
def c6_cached_state : CacheState :=
  ⟨[("g", { game_id := "g", igdb_id := some 7, igdb_data := some ⟨7, "n", none⟩,
            cover_path := none, last_updated := 1000 })], []⟩

theorem fetch_and_cache_idempotent_witness :
    (fetchTwice c6_ok_match true 1000 ⟨[], []⟩ "g" "n").1.search_calls +
        (fetchTwice c6_ok_match true 1000 ⟨[], []⟩ "g" "n").2.search_calls ≤ 1 ∧
    (fetchTwice c6_ok_match true 1000 c6_cached_state "g" "n").1 =
      ⟨c6_cached_state, RustResult.ok true,
        [MetadataStatus.Started "g" "n", MetadataStatus.Success "g" "n"], 0⟩ :=
  ⟨(fetch_and_cache_idempotent c6_ok_match true 1000 ⟨[], []⟩ "g" "n"
      (fun m h => by simp [lookupA] at h)).1 (by decide),
   (fetch_and_cache_idempotent c6_ok_match true 1000 c6_cached_state "g" "n"
      (fun m h => by
        simp [c6_cached_state, lookupA] at h
        rw [← h])).2 (by decide) (by decide)⟩

/-- Recognizer of the Completed variant. -/
def isCompletedEvent : MetadataStatus → Bool
  | MetadataStatus.Completed _ _ _ => true
  | _ => false

/-- fetch_and_cache_metadata never emits a Completed event. -/
theorem fetch_events_no_completed (bm : String → RustResult String (Option IgdbGame))
    (wOk : Bool) (now : Nat) (st : CacheState) (id nm : String) :
    ((fetch_and_cache_metadata bm wOk now st id nm).events.countP isCompletedEvent) = 0 := by
  unfold fetch_and_cache_metadata
  by_cases hhit : (has_igdb_metadata st id && ! is_stale st now id 30) = true
  · rw [if_pos hhit]
    rfl
  · rw [if_neg hhit]
    cases bm nm with
    | err e => rfl
    | ok o =>
      cases o with
      | none => rfl
      | some g =>
        cases h : (update_with_igdb now wOk st id g).1 with
        | ok v => simp [h, isCompletedEvent]
        | err e => simp [h, isCompletedEvent]

/-- One step of the batch loop never emits a Completed event. -/
theorem update_library_step_no_completed (bm : String → RustResult String (Option IgdbGame))
    (wOk cov : String → Bool) (dl : String → RustResult String Unit) (now total : Nat)
    (acc : BatchState) (ig : Nat × (String × String)) :
    (update_library_step bm wOk cov dl now total acc ig).events.countP isCompletedEvent =
      acc.events.countP isCompletedEvent := by
  unfold update_library_step
  dsimp only
  split
  · split <;>
      simp [List.countP_append, List.countP_cons, isCompletedEvent, fetch_events_no_completed]
  · simp [List.countP_append, List.countP_cons, isCompletedEvent]

/-- The batch loop as a whole never emits a Completed event. -/
theorem foldl_steps_no_completed (bm : String → RustResult String (Option IgdbGame))
    (wOk cov : String → Bool) (dl : String → RustResult String Unit) (now total : Nat)
    (l : List (Nat × (String × String))) :
    ∀ acc : BatchState,
      ((l.foldl (update_library_step bm wOk cov dl now total) acc).events.countP
          isCompletedEvent) = acc.events.countP isCompletedEvent := by
  induction l with
  | nil => intro acc; rfl
  | cons ig l ih =>
    intro acc
    rw [List.foldl_cons, ih, update_library_step_no_completed]

/-- The three games of scenario F. -/
def scenario_games : List (String × String) := [("g1", "n1"), ("g2", "n2"), ("g3", "n3")]

/-- A collaborator whose lookup fails for game 2 and matches games 1 and 3. -/
def scenario_best_match : String → RustResult String (Option IgdbGame) :=
  fun n => if n = "n2" then RustResult.err "IGDB is down" else RustResult.ok (some ⟨7, n, none⟩)

/-- The scenario F batch run on an empty cache. -/
def scenario_run : BatchState × RustResult String Unit :=
  update_library_metadata scenario_best_match (fun _ => true) (fun _ => false)
    (fun _ => RustResult.ok ()) 1000 ⟨[], []⟩ scenario_games

/-- C5: for every batch, update_library_metadata returns Ok, emits exactly
one Completed event, that event is the last one and carries the final
successful/failed counters with the batch length as total; in the concrete
3-game batch where game 2's lookup errors and games 1 and 3 succeed, the run
ends with Completed 2 1 3 and still returns Ok. -/
theorem update_library_completed_once :
    (∀ (bm : String → RustResult String (Option IgdbGame)) (wOk cov : String → Bool)
        (dl : String → RustResult String Unit) (now : Nat) (st : CacheState)
        (games : List (String × String)),
      (update_library_metadata bm wOk cov dl now st games).2 = RustResult.ok () ∧
      (update_library_metadata bm wOk cov dl now st games).1.events.countP
          isCompletedEvent = 1 ∧
      (update_library_metadata bm wOk cov dl now st games).1.events.getLast? =
        some (MetadataStatus.Completed
          (update_library_metadata bm wOk cov dl now st games).1.updated
          (update_library_metadata bm wOk cov dl now st games).1.failed games.length)) ∧
    (scenario_run.1.events.getLast? = some (MetadataStatus.Completed 2 1 3) ∧
     scenario_run.1.events.countP isCompletedEvent = 1 ∧
     scenario_run.2 = RustResult.ok ()) := by
  constructor
  · intro bm wOk cov dl now st games
    refine ⟨rfl, ?_, ?_⟩
    · unfold update_library_metadata
      dsimp only
      rw [List.countP_append, foldl_steps_no_completed]
      simp [isCompletedEvent]
    · unfold update_library_metadata
      dsimp only
      rw [List.getLast?_concat]
  · exact ⟨by decide, by decide, rfl⟩
